import Mathlib

/-!
Verification development for the USLM tax-code parser
(`src/models.py`, `src/parser.py`).

The Python source is shallowly embedded: strings are `List Char`/`String`,
XML elements (lxml `_Element`) are a mutual inductive `Xml`/`XmlForest`,
the parser's mutable counters (`sections_parsed`, `total_nodes`,
`repealed_sections`) are threaded through an explicit `ParserState`, and
fallible code (`parse_file`, which raises on a missing file or a missing
title element) returns `Except`.  A source file on disk is modelled as
`Option Xml` (`none` = absent file).  Namespace lookups of the source
(`uslm:` followed by the namespace-free retry) are collapsed: tags in the
model are local names.
-/

/-- Whitespace as recognized by Python's `str.strip()` and the regex `\s`
class on the inputs handled here (ASCII whitespace plus the no-break space
produced by the `nbsp` character entity). -/
def pyIsSpace (c : Char) : Bool :=
  c = ' ' || c = '\t' || c = '\n' || c = '\r' || c = '\x0b' || c = '\x0c' || c = '\xa0'

/-- Remove leading whitespace, as in Python `str.lstrip()`. -/
def lstripChars (cs : List Char) : List Char := cs.dropWhile pyIsSpace

/-- Remove trailing whitespace, as in Python `str.rstrip()`. -/
def rstripChars (cs : List Char) : List Char := (cs.reverse.dropWhile pyIsSpace).reverse

/-- Python `str.strip()`: remove leading and trailing whitespace. -/
def pyStrip (cs : List Char) : List Char := rstripChars (lstripChars cs)

/-- Scanner for the regex substitution `re.sub(r"\s+", " ", text)` from
`_clean_text`: `prevWs` records whether the previous character was part of
a whitespace run (whose single replacement space was already emitted). -/
def collapseWsAux (prevWs : Bool) : List Char → List Char
  | [] => []
  | c :: cs =>
    if pyIsSpace c then
      if prevWs then collapseWsAux true cs
      else ' ' :: collapseWsAux true cs
    else c :: collapseWsAux false cs

/-- The regex substitution `re.sub(r"\s+", " ", text)` from `_clean_text`:
every maximal run of whitespace becomes a single space. -/
def collapseWs (cs : List Char) : List Char := collapseWsAux false cs

/-- Character entities decoded by the model of Python's `html.unescape`
(`_clean_text` decodes HTML entities first).  The model covers the named
entities that occur in the corpus; as in the html5 table the
semicolon-less spellings are also recognized, longest name first. -/
def htmlEntities : List (List Char × Char) :=
  [("amp;".data, '&'), ("amp".data, '&'),
   ("lt;".data, '<'), ("lt".data, '<'),
   ("gt;".data, '>'), ("gt".data, '>'),
   ("quot;".data, '"'), ("quot".data, '"'),
   ("apos;".data, '\''),
   ("nbsp;".data, '\xa0'), ("nbsp".data, '\xa0')]

/-- Find the entity whose name is a prefix of `cs` (the text following a
`&`); return the decoded character and the length of the consumed name. -/
def findEntity (cs : List Char) : Option (Char × Nat) :=
  (htmlEntities.find? (fun e => e.1.isPrefixOf cs)).map (fun e => (e.2, e.1.length))

/-- Fuel-indexed scanner for the model of Python `html.unescape`; each
step consumes at least one character, so fuel equal to the input length is
always sufficient. -/
def unescapeAux : Nat → List Char → List Char
  | _, [] => []
  | 0, cs => cs
  | fuel + 1, c :: cs =>
    if c = '&' then
      match findEntity cs with
      | some (r, n) => r :: unescapeAux fuel (cs.drop n)
      | none => '&' :: unescapeAux fuel cs
    else c :: unescapeAux fuel cs

/-- Model of Python `html.unescape`: decode character entities, leaving
unrecognized `&` occurrences untouched. -/
def unescapeChars (cs : List Char) : List Char := unescapeAux cs.length cs

/-- Model of `USLMParser._clean_text` on character lists: decode HTML entities,
collapse whitespace runs to a single space, strip the ends. -/
def cleanTextChars (cs : List Char) : List Char := pyStrip (collapseWs (unescapeChars cs))

/-- Model of `USLMParser._clean_text`: clean up extracted text. -/
def cleanText (s : String) : String := ⟨cleanTextChars s.data⟩

example : cleanText "  a   b  " = "a b" := by rfl
example : cleanText "&amp;amp;" = "&amp;" := by rfl
example : cleanText "&amp;" = "&" := by rfl

/-! ### Cross-reference extraction (`src/models.py`)

The nine regular expressions of `SECTION_REFERENCE_PATTERNS` are embedded
as purpose-built matchers over `List Char`.  All of them are built from
literals, `\s+`/`\s*`, `\b`, and the section-designator expression
`\d+[A-Za-z]?(?:\([a-z0-9]+\))*`; none of these need backtracking (every
greedy sub-expression is followed by a character class disjoint from it),
so maximal-munch scanning reproduces `re.finditer` with `re.IGNORECASE`
exactly.  Each matcher receives the character preceding the current
position (for `\b`) and returns the match length plus the captured groups
verbatim (original case, as Python group captures do). -/

/-- A single regex match: its length and its captured groups. -/
structure MatchRes where
  len : Nat
  caps : List (List Char)
deriving Repr, DecidableEq

/-- Word characters for the regex `\b` boundary (`[A-Za-z0-9_]`). -/
def isWordChar (c : Char) : Bool := c.isAlphanum || c = '_'

/-- A `\b` boundary holds before a word character iff the previous
character is absent or not a word character. -/
def wordBoundaryOk : Option Char → Bool
  | none => true
  | some c => !(isWordChar c)

/-- Consume a literal (given in lowercase), comparing case-insensitively
as `re.IGNORECASE` does; return the rest of the input. -/
def eatLit : List Char → List Char → Option (List Char)
  | [], cs => some cs
  | _ :: _, [] => none
  | l :: ls, c :: cs => if c.toLower = l then eatLit ls cs else none

/-- Consume `\s+`: at least one whitespace character, maximal munch. -/
def eatWs1 : List Char → Option (List Char)
  | [] => none
  | c :: cs => if pyIsSpace c then some (cs.dropWhile pyIsSpace) else none

/-- Consume `\d+`: at least one digit, maximal munch; return the captured
digits and the rest. -/
def eatDigits1 (cs : List Char) : Option (List Char × List Char) :=
  let ds := cs.takeWhile Char.isDigit
  if ds.isEmpty then none else some (ds, cs.drop ds.length)

/-- Consume `[A-Za-z]?`: an optional ASCII letter. -/
def eatOptLetter : List Char → List Char × List Char
  | [] => ([], [])
  | c :: cs => if c.isAlpha then ([c], cs) else ([], c :: cs)

/-- Fuel-indexed loop for `(?:\([a-z0-9]+\))*` (case-insensitive, so the
class is `[A-Za-z0-9]`); each iteration consumes at least three
characters, so fuel equal to the input length suffices. -/
def eatParenGroupsAux : Nat → List Char → List Char × List Char
  | 0, cs => ([], cs)
  | fuel + 1, cs =>
    match cs with
    | '(' :: cs' =>
      let inner := cs'.takeWhile Char.isAlphanum
      if inner.isEmpty then ([], cs)
      else
        match cs'.drop inner.length with
        | ')' :: rest =>
          let (more, rest2) := eatParenGroupsAux fuel rest
          ('(' :: inner ++ ')' :: more, rest2)
        | _ => ([], cs)
    | _ => ([], cs)

/-- Consume `(?:\([a-z0-9]+\))*`, returning the consumed characters. -/
def eatParenGroups (cs : List Char) : List Char × List Char :=
  eatParenGroupsAux cs.length cs

/-- Consume the full section designator
`\d+[A-Za-z]?(?:\([a-z0-9]+\))*`, returning (capture, rest). -/
def eatDesignator (cs : List Char) : Option (List Char × List Char) :=
  match eatDigits1 cs with
  | none => none
  | some (ds, r1) =>
    let (l, r2) := eatOptLetter r1
    let (g, r3) := eatParenGroups r2
    some (ds ++ l ++ g, r3)

/-- Consume the short designator `\d+[A-Za-z]?` (used by the
"sections X and Y" pattern, which captures no paren groups). -/
def eatShortDesignator (cs : List Char) : Option (List Char × List Char) :=
  match eatDigits1 cs with
  | none => none
  | some (ds, r1) =>
    let (l, r2) := eatOptLetter r1
    some (ds ++ l, r2)

/-- Matcher: `\bsection\s+(D)`. -/
def matchSection (prev : Option Char) (cs : List Char) : Option MatchRes := do
  guard (wordBoundaryOk prev)
  let r1 ← eatLit "section".data cs
  let r2 ← eatWs1 r1
  let (cap, r3) ← eatDesignator r2
  pure ⟨cs.length - r3.length, [cap]⟩

/-- Matcher: `\bsections?\s+(\d+[A-Za-z]?)\s+(?:and|or)\s+(\d+[A-Za-z]?)`. -/
def matchSectionsAnd (prev : Option Char) (cs : List Char) : Option MatchRes := do
  guard (wordBoundaryOk prev)
  let r1 ← eatLit "section".data cs
  let r1b := match r1 with
    | c :: rest => if c.toLower = 's' then rest else r1
    | [] => r1
  let r2 ← eatWs1 r1b
  let (cap1, r3) ← eatShortDesignator r2
  let r4 ← eatWs1 r3
  let r5 ← (eatLit "and".data r4) <|> (eatLit "or".data r4)
  let r6 ← eatWs1 r5
  let (cap2, r7) ← eatShortDesignator r6
  pure ⟨cs.length - r7.length, [cap1, cap2]⟩

/-- Matcher: `\bsec\.\s*(D)`. -/
def matchSecDot (prev : Option Char) (cs : List Char) : Option MatchRes := do
  guard (wordBoundaryOk prev)
  let r1 ← eatLit "sec.".data cs
  let r2 := r1.dropWhile pyIsSpace
  let (cap, r3) ← eatDesignator r2
  pure ⟨cs.length - r3.length, [cap]⟩

/-- Matcher for the patterns that are a fixed phrase followed by
`section\s+(D)` (no leading `\b` in the source patterns). -/
def matchPhrase (phrase : String) (_prev : Option Char) (cs : List Char) :
    Option MatchRes := do
  let r1 ← eatLit phrase.data cs
  let r2 ← eatWs1 r1
  let (cap, r3) ← eatDesignator r2
  pure ⟨cs.length - r3.length, [cap]⟩

/-- Matcher: `subject to (?:the provisions of )?section\s+(D)`.  The
optional group needs no backtracking: its first letter `t` differs from
the `s` of `section`. -/
def matchSubjectTo (_prev : Option Char) (cs : List Char) : Option MatchRes := do
  let r1 ← eatLit "subject to ".data cs
  let r1b := match eatLit "the provisions of ".data r1 with
    | some r => r
    | none => r1
  let r2 ← eatLit "section".data r1b
  let r3 ← eatWs1 r2
  let (cap, r4) ← eatDesignator r3
  pure ⟨cs.length - r4.length, [cap]⟩

/-- The pattern list `SECTION_REFERENCE_PATTERNS`, in source order, each
with its reference type. -/
def SECTION_REFERENCE_PATTERNS :
    List ((Option Char → List Char → Option MatchRes) × String) :=
  [(matchSection, "general"),
   (matchSectionsAnd, "general"),
   (matchSecDot, "general"),
   (matchPhrase "as defined in section", "definition"),
   (matchSubjectTo, "subject_to"),
   (matchPhrase "except as provided in section", "exception"),
   (matchPhrase "under section", "general"),
   (matchPhrase "provided in section", "general"),
   (matchPhrase "see section", "general")]

/-- Model of `re.finditer`: scan left to right, on a match emit
`(start, end, groups)` and continue after the match (matches never
overlap); fuel equal to the input length suffices since every pattern
consumes at least one character. -/
def findIterAux (m : Option Char → List Char → Option MatchRes) :
    Nat → Option Char → Nat → List Char → List (Nat × Nat × List (List Char))
  | 0, _, _, _ => []
  | _, _, _, [] => []
  | fuel + 1, prev, pos, c :: rest =>
    match m prev (c :: rest) with
    | some res =>
      match res.len with
      | 0 => findIterAux m fuel (some c) (pos + 1) rest
      | len + 1 =>
        (pos, pos + len + 1, res.caps) ::
          findIterAux m fuel (((c :: rest).take (len + 1)).getLast?) (pos + len + 1)
            ((c :: rest).drop (len + 1))
    | none => findIterAux m fuel (some c) (pos + 1) rest

/-- All matches of a pattern in a text, as `(start, end, groups)`. -/
def findIter (m : Option Char → List Char → Option MatchRes) (cs : List Char) :
    List (Nat × Nat × List (List Char)) :=
  findIterAux m cs.length none 0 cs

/-- A cross-reference to another section in the tax code
(`models.Reference`; pydantic fields become plain fields). -/
structure Reference where
  target_section : String
  context : String
  reference_type : String
deriving Repr, DecidableEq

/-- Body of the inner loop of `extract_references`: a captured group is
accepted if non-empty and not already seen; the stored context is the
text from 30 characters before the match start to 30 after its end,
stripped and wrapped in ellipses. -/
def addCapture (cs : List Char) (s e : Nat) (rtype : String)
    (acc : List Reference × List (List Char)) (cap : List Char) :
    List Reference × List (List Char) :=
  if cap.isEmpty || acc.2.contains cap then acc
  else
    let context := pyStrip ((cs.take (min cs.length (e + 30))).drop (s - 30))
    (acc.1 ++ [⟨⟨cap⟩, ⟨"...".data ++ context ++ "...".data⟩, rtype⟩],
     acc.2 ++ [cap])

/-- Model of `models.extract_references`: run the patterns in list order over the
text, deduplicating on the captured designator string alone. -/
def extract_references (text : String) : List Reference :=
  if text = "" then []
  else
    let cs := text.data
    (SECTION_REFERENCE_PATTERNS.foldl (fun acc pm =>
      (findIter pm.1 cs).foldl (fun acc2 m =>
        m.2.2.foldl (addCapture cs m.1 m.2.1 pm.2) acc2) acc)
      ([], [])).1

example :
    extract_references "as defined in section 162 applies when section 162 holds" =
      [⟨"162", "...as defined in section 162 applies when section 162 hold...",
        "general"⟩] := by rfl

/-! ### Data model enums (`src/models.py`) -/

/-- Embedding of `models.NodeType`: types of nodes in the tax code hierarchy.
Constructor names follow the Python enum members; `nodeTypeValue` gives
the enum values. -/
inductive NodeType where
  | TITLE | SUBTITLE | CHAPTER | SUBCHAPTER | PART | SUBPART
  | SECTION | SUBSECTION | PARAGRAPH | SUBPARAGRAPH | CLAUSE
deriving Repr, DecidableEq

/-- The `str` value of each `NodeType` member. -/
def nodeTypeValue : NodeType → String
  | .TITLE => "title"
  | .SUBTITLE => "subtitle"
  | .CHAPTER => "chapter"
  | .SUBCHAPTER => "subchapter"
  | .PART => "part"
  | .SUBPART => "subpart"
  | .SECTION => "section"
  | .SUBSECTION => "subsection"
  | .PARAGRAPH => "paragraph"
  | .SUBPARAGRAPH => "subparagraph"
  | .CLAUSE => "clause"

/-- Embedding of `models.NodeStatus`: status of a legal node. -/
inductive NodeStatus where
  | ACTIVE | REPEALED | EXPIRED | RESERVED
deriving Repr, DecidableEq

/-! ### Citation derivation (`USLMParser._build_citation_id`) -/

/-- Python `identifier.strip("/")`: drop leading and trailing slashes. -/
def stripSlashes (cs : List Char) : List Char :=
  ((cs.dropWhile (· = '/')).reverse.dropWhile (· = '/')).reverse

/-- Python `str.split("/")`: split on every slash, keeping empty pieces
(the empty string splits to one empty piece). -/
def splitSlash : List Char → List (List Char)
  | [] => [[]]
  | c :: cs =>
    if c = '/' then [] :: splitSlash cs
    else
      match splitSlash cs with
      | h :: t => (c :: h) :: t
      | [] => [[c]]

/-- The regex substitution `re.sub(r"^Sec\.?\s*", "", num)` (case
sensitive): drop a leading `Sec`, an optional dot, and following
whitespace. -/
def stripSecAbbrev (num : List Char) : List Char :=
  match num with
  | 'S' :: 'e' :: 'c' :: rest =>
    let rest1 := match rest with
      | '.' :: r => r
      | _ => rest
    rest1.dropWhile pyIsSpace
  | _ => num

/-- One iteration of the segment loop in `_build_citation_id`, in source
branch order: the accumulated citation pieces and the `in_section` flag.
The first branch tests `part.startswith("s")`, so the later `st` / `sch`
/ `spt` branches can never fire. -/
def citationStep (acc : List Char × Bool) (part : List Char) : List Char × Bool :=
  if "s".data.isPrefixOf part then (acc.1 ++ part.drop 1, true)
  else if "st".data.isPrefixOf part then acc
  else if "ch".data.isPrefixOf part then acc
  else if "sch".data.isPrefixOf part then acc
  else if "pt".data.isPrefixOf part then acc
  else if "spt".data.isPrefixOf part then acc
  else if acc.2 then (acc.1 ++ ('(' :: part ++ [')']), acc.2)
  else acc

/-- The citation token produced by the fallback tail of
`_build_citation_id`: the declared number with the `Sec.` abbreviation
stripped when the number is truthy, else the raw identifier. -/
def citationFallbackSuffix (num : Option String) (identifier : String) : List Char :=
  match num with
  | some s => if s = "" then identifier.data else stripSecAbbrev s.data
  | none => identifier.data

/-- Fallback tail of `_build_citation_id`: use the declared number with
the `Sec.` abbreviation stripped, else the raw identifier (both `return`
statements share the literal `26 USC ` prefix). -/
def citationFallback (num : Option String) (identifier : String) : String :=
  ⟨"26 USC ".data ++ citationFallbackSuffix num identifier⟩

/-- The token of the branch `f"26 USC {num or 'unknown'}"` taken when the
identifier is absent. -/
def numOrUnknownSuffix (num : Option String) : List Char :=
  match num with
  | some s => if s = "" then "unknown".data else s.data
  | none => "unknown".data

/-- Model of `USLMParser._build_citation_id`: build an official citation ID such
as `26 USC 162(a)` from the node type (unused by the source body), the
declared number, and the identifier path. -/
def buildCitationId (_nodeType : NodeType) (num : Option String)
    (identifier : String) : String :=
  if identifier = "" then ⟨"26 USC ".data ++ numOrUnknownSuffix num⟩
  else
    let parts := splitSlash (stripSlashes identifier.data)
    if 4 ≤ parts.length ∧ parts.take 2 = ["us".data, "usc".data] then
      let sp := ((parts.drop 3).foldl citationStep ([], false)).1
      if sp.isEmpty then citationFallback num identifier
      else ⟨"26 USC ".data ++ sp⟩
    else citationFallback num identifier

example : buildCitationId .SUBSECTION (some "(a)") "/us/usc/t26/s162/a" = "26 USC 162(a)" := by rfl
example : buildCitationId .SECTION none "/us/usc/t26/stA/s162/a" = "26 USC tA162(a)" := by rfl
example : buildCitationId .SECTION (some "Sec. 7") "" = "26 USC Sec. 7" := by rfl
example : buildCitationId .SECTION (some "Sec. 7") "/bogus" = "26 USC 7" := by rfl
example : buildCitationId .SECTION none "/us/usc/t26/ch1" = "26 USC /us/usc/t26/ch1" := by rfl

/-! ### XML document model

An lxml element carries a tag (modelled as its local name, since the
parser always retries namespaced lookups without the namespace), an
attribute list, optional leading text, children in document order, and
optional tail text after its closing tag.  `Xml` and `XmlForest` are a
mutual inductive so that all traversals are structural. -/

mutual
inductive Xml where
  | mk : String → List (String × String) → Option String → XmlForest → Option String → Xml
inductive XmlForest where
  | nil : XmlForest
  | cons : Xml → XmlForest → XmlForest
end

/-- Tag (local name) of an element. -/
def Xml.tag : Xml → String
  | .mk t _ _ _ _ => t

/-- Attribute list of an element. -/
def Xml.attrs : Xml → List (String × String)
  | .mk _ a _ _ _ => a

/-- Leading text of an element (`elem.text`). -/
def Xml.text : Xml → Option String
  | .mk _ _ x _ _ => x

/-- Children of an element, in document order. -/
def Xml.children : Xml → XmlForest
  | .mk _ _ _ cs _ => cs

/-- Tail text of an element (`elem.tail`). -/
def Xml.tail : Xml → Option String
  | .mk _ _ _ _ tl => tl

/-- Children as a `List` for the source's `for child in elem` loops. -/
def XmlForest.toList : XmlForest → List Xml
  | .nil => []
  | .cons x xs => x :: xs.toList

/-- Model of `elem.get(name)`: first attribute with the given name. -/
def getAttr (elem : Xml) (name : String) : Option String :=
  elem.attrs.lookup name

mutual
/-- lxml `elem.itertext()`: the element's text followed by each child's
itertext and tail, in document order. -/
def itertext : Xml → List Char
  | .mk _ _ txt cs _ =>
    (match txt with | some s => s.data | none => []) ++ itertextF cs
/-- Concatenated `itertext` and tails over a forest of children. -/
def itertextF : XmlForest → List Char
  | .nil => []
  | .cons (.mk t a txt cs tl) xs =>
    itertext (.mk t a txt cs tl) ++
      (match tl with | some s => s.data | none => []) ++ itertextF xs
end

/-- Model of `elem.find(name)`: first direct child with the given tag. -/
def findChild (name : String) : XmlForest → Option Xml
  | .nil => none
  | .cons x xs => if x.tag = name then some x else findChild name xs

mutual
/-- Model of a `.//name` search over a forest: first matching element in
document order among the elements of the forest and their descendants. -/
def findDescendant (name : String) : XmlForest → Option Xml
  | .nil => none
  | .cons x xs =>
    match findSelfOrDescendant name x with
    | some r => some r
    | none => findDescendant name xs
/-- Self-or-descendant search in document order (self first). -/
def findSelfOrDescendant (name : String) : Xml → Option Xml
  | .mk t a txt cs tl =>
    if t = name then some (.mk t a txt cs tl)
    else findDescendant name cs
end

mutual
/-- lxml `elem.iter()`: the element and all its descendants in document
order. -/
def iterAll : Xml → List Xml
  | .mk t a txt cs tl => .mk t a txt cs tl :: iterAllF cs
/-- Application of `iterAll` to each element of a forest, concatenated. -/
def iterAllF : XmlForest → List Xml
  | .nil => []
  | .cons x xs => iterAll x ++ iterAllF xs
end

/-! ### Parser tables and text extraction (`src/parser.py`) -/

/-- Embedding of `parser.ELEMENT_TO_NODE_TYPE`: mapping from XML element names to
`NodeType`. -/
def ELEMENT_TO_NODE_TYPE : List (String × NodeType) :=
  [("title", .TITLE), ("subtitle", .SUBTITLE), ("chapter", .CHAPTER),
   ("subchapter", .SUBCHAPTER), ("part", .PART), ("subpart", .SUBPART),
   ("section", .SECTION), ("subsection", .SUBSECTION),
   ("paragraph", .PARAGRAPH), ("subparagraph", .SUBPARAGRAPH),
   ("clause", .CLAUSE)]

/-- Lookup of a tag in `ELEMENT_TO_NODE_TYPE`. -/
def lookupNodeType (tag : String) : Option NodeType :=
  ELEMENT_TO_NODE_TYPE.lookup tag

/-- Model of `USLMParser._get_text_content`: the stripped `itertext` of the first
child with the given name, or `None` when absent or empty. -/
def getTextContent (elem : Xml) (childName : String) : Option String :=
  match findChild childName elem.children with
  | none => none
  | some child =>
    let t := pyStrip (itertext child)
    if t.isEmpty then none else some ⟨t⟩

/-- Cell text in `_table_to_markdown`: stripped `itertext` with every
literal pipe escaped as `\|`. -/
def cellText (cell : Xml) : List Char :=
  (pyStrip (itertext cell)).foldr
    (fun c acc => if c = '|' then '\\' :: '|' :: acc else c :: acc) []

/-- The `th`/`td` cells of one `tr` row. -/
def rowCells (tr : Xml) : List (List Char) :=
  tr.children.toList.filterMap (fun cell =>
    if cell.tag = "th" || cell.tag = "td" then some (cellText cell) else none)

/-- All non-empty cell rows of a table: every `tr` among the table's
elements (`table.iter()`), in document order, keeping rows that have at
least one `th`/`td` cell. -/
def tableRows (table : Xml) : List (List (List Char)) :=
  (iterAll table).filterMap (fun e =>
    if e.tag = "tr" then
      let cells := rowCells e
      if cells.isEmpty then none else some cells
    else none)

/-- Pad a row on the right with empty cells up to the header width
(the `while len(row) < len(rows[0])` loop). -/
def padRow (row : List (List Char)) (width : Nat) : List (List Char) :=
  row ++ List.replicate (width - row.length) []

/-- Render one markdown line: `"| " + " | ".join(cells) + " |"`. -/
def joinPipes (cells : List (List Char)) : List Char :=
  '|' :: ' ' :: List.intercalate " | ".data cells ++ [' ', '|']

/-- The rows of the rendered markdown table, as cell lists: header row,
separator row of the same column count, then the remaining rows padded to
the header width. -/
def mdRows (rows : List (List (List Char))) : List (List (List Char)) :=
  match rows with
  | [] => []
  | r0 :: rest =>
    r0 :: List.replicate r0.length "---".data ::
      rest.map (fun r => padRow r r0.length)

/-- Markdown rendering of collected rows: each row joined with pipes, the
lines joined with newlines (empty when there are no rows). -/
def markdownOfRows (rows : List (List (List Char))) : List Char :=
  List.intercalate "\n".data ((mdRows rows).map joinPipes)

/-- Model of `USLMParser._table_to_markdown`: convert a table element to a
markdown text block. -/
def tableToMarkdown (table : Xml) : List Char :=
  markdownOfRows (tableRows table)

/-- Model of `USLMParser._element_to_text`: a table element renders as markdown; an
element containing a table renders as leading text, the table block, and
the joined non-empty tails of the children, stripped; anything else is its
`itertext`. -/
def elementToText (elem : Xml) : List Char :=
  if elem.tag = "table" then tableToMarkdown elem
  else
    match findDescendant "table" elem.children with
    | some table =>
      let pre := match elem.text with | some s => s.data | none => []
      let post := List.intercalate " ".data
        (elem.children.toList.filterMap (fun child =>
          match child.tail with
          | some s => if s = "" then none else some s.data
          | none => none))
      pyStrip (pre ++ '\n' :: tableToMarkdown table ++ '\n' :: post)
    | none => itertext elem

/-- Model of `USLMParser._extract_text`: prefer the `content` child; otherwise
concatenate the non-structural, non-metadata children's text with the
element's own leading text first; then `_clean_text`. -/
def extractText (elem : Xml) : List Char :=
  let parts : List (List Char) :=
    match findChild "content" elem.children with
    | some content => [elementToText content]
    | none =>
      let childParts := elem.children.toList.filterMap (fun child =>
        if (lookupNodeType child.tag).isSome
            || child.tag = "num" || child.tag = "heading" || child.tag = "meta" then
          none
        else some (elementToText child))
      match elem.text with
      | some s => if s = "" then childParts else pyStrip s.data :: childParts
      | none => childParts
  cleanTextChars (List.intercalate " ".data (parts.filter (fun p => !p.isEmpty)))

/-- Substring test, as Python's `in` on strings. -/
def containsSub (needle : List Char) : List Char → Bool
  | [] => needle.isEmpty
  | c :: cs => needle.isPrefixOf (c :: cs) || containsSub needle cs

/-- Python `str.lower()` (ASCII case mapping). -/
def pyLower (cs : List Char) : List Char := cs.map Char.toLower

/-- Model of `USLMParser._determine_status`: status attribute first (`repeal`,
`expired`, `reserved` markers), then `[repealed` / `repealed.` /
`[expired` markers in the lowered extracted text, else active. -/
def determineStatus (elem : Xml) : NodeStatus :=
  let statusAttr := pyLower (match getAttr elem "status" with
    | some s => s.data
    | none => [])
  if containsSub "repeal".data statusAttr then .REPEALED
  else if containsSub "expired".data statusAttr then .EXPIRED
  else if containsSub "reserved".data statusAttr then .RESERVED
  else
    let text := pyLower (extractText elem)
    if containsSub "[repealed".data text || containsSub "repealed.".data text then .REPEALED
    else if containsSub "[expired".data text then .EXPIRED
    else .ACTIVE

/-! ### Legal node tree and the tree builder (`USLMParser._parse_element`,
`USLMParser.parse_file`) -/

mutual
/-- Embedding of `models.LegalNode`: id, identifier, node type, num, heading, text,
status, parent id, hierarchical path, references, children. -/
inductive LegalNode where
  | mk : String → String → NodeType → Option String → Option String → String →
         NodeStatus → Option String → String → List Reference → LegalForest → LegalNode
/-- Children of a `LegalNode`, in document order. -/
inductive LegalForest where
  | nil : LegalForest
  | cons : LegalNode → LegalForest → LegalForest
end

/-- Citation id of a node. -/
def LegalNode.id : LegalNode → String
  | .mk i _ _ _ _ _ _ _ _ _ _ => i

/-- Node type of a node. -/
def LegalNode.nodeType : LegalNode → NodeType
  | .mk _ _ nt _ _ _ _ _ _ _ _ => nt

/-- Status of a node. -/
def LegalNode.status : LegalNode → NodeStatus
  | .mk _ _ _ _ _ _ st _ _ _ _ => st

/-- Text of a node. -/
def LegalNode.text : LegalNode → String
  | .mk _ _ _ _ _ tx _ _ _ _ _ => tx

/-- Children of a node. -/
def LegalNode.children : LegalNode → LegalForest
  | .mk _ _ _ _ _ _ _ _ _ _ cs => cs

/-- References of a node. -/
def LegalNode.references : LegalNode → List Reference
  | .mk _ _ _ _ _ _ _ _ _ rs _ => rs

/-- Python `str.capitalize()`: first character upper-cased, the rest
lower-cased. -/
def pyCapitalize (s : String) : String :=
  match s.data with
  | [] => ""
  | c :: cs => ⟨c.toUpper :: cs.map Char.toLower⟩

/-- The hierarchical-path label of a node: `"Type: heading"` when a
heading exists, else `"Type num"` when a num exists. -/
def pathLabel (nt : NodeType) (num heading : Option String) : List String :=
  match heading with
  | some h => [pyCapitalize (nodeTypeValue nt) ++ ": " ++ h]
  | none =>
    match num with
    | some n => [pyCapitalize (nodeTypeValue nt) ++ " " ++ n]
    | none => []

/-- The hierarchical path of a node: parent path (when non-empty)
followed by the node's own label, joined with `" > "`. -/
def hierPath (parentPath : String) (nt : NodeType) (num heading : Option String) :
    String :=
  String.intercalate " > "
    ((if parentPath = "" then [] else [parentPath]) ++ pathLabel nt num heading)

/-- The mutable parser fields (`max_sections`, `sections_parsed`,
`total_nodes`, `repealed_sections`) threaded as explicit state.
`maxSections` is `Option Nat`, matching the documented parameter domain
(`None` or a count). -/
structure ParserState where
  maxSections : Option Nat
  sectionsParsed : Nat
  totalNodes : Nat
  repealedSections : List String
deriving Repr, DecidableEq

/-- The guard `if self.max_sections and self.sections_parsed >=
self.max_sections`, including Python's truthiness: a `max_sections` of
`None` or `0` disables the cutoff. -/
def cutoffReached (st : ParserState) : Bool :=
  match st.maxSections with
  | some m => decide (m ≠ 0) && decide (m ≤ st.sectionsParsed)
  | none => false

/-- Counter and repealed-list update at node creation: sections bump
`sectionsParsed` and, when repealed, append their id; every node bumps
`totalNodes`. -/
def stepState (st : ParserState) (nt : NodeType) (status : NodeStatus)
    (nodeId : String) : ParserState :=
  let st1 :=
    if nt = .SECTION then
      { st with
        sectionsParsed := st.sectionsParsed + 1,
        repealedSections :=
          if status = .REPEALED then st.repealedSections ++ [nodeId]
          else st.repealedSections }
    else st
  { st1 with totalNodes := st1.totalNodes + 1 }

/-- All element-local fields of the node built by `_parse_element`,
bundled so the recursion below stays small. -/
def mkLegalNode (nt : NodeType) (elem : Xml) (parentPath : String)
    (parentId : Option String) (kids : LegalForest) : LegalNode :=
  let identifier := match getAttr elem "identifier" with | some s => s | none => ""
  let num := getTextContent elem "num"
  let heading := getTextContent elem "heading"
  let text : String := ⟨extractText elem⟩
  .mk (buildCitationId nt num identifier) identifier nt num heading text
    (determineStatus elem) parentId (hierPath parentPath nt num heading)
    (extract_references text) kids

mutual
/-- Model of `USLMParser._parse_element`: return early on the section cutoff, skip
unrecognized tags, otherwise build the node, update the counters, and
recurse into the children. -/
def parseElement : ParserState → Xml → String → Option String →
    ParserState × Option LegalNode
  | st, .mk t a txt cs tl, parentPath, parentId =>
    let elem : Xml := .mk t a txt cs tl
    if cutoffReached st then (st, none)
    else
      match lookupNodeType t with
      | none => (st, none)
      | some nt =>
        let num := getTextContent elem "num"
        let heading := getTextContent elem "heading"
        let identifier := match getAttr elem "identifier" with | some s => s | none => ""
        let hp := hierPath parentPath nt num heading
        let nodeId := buildCitationId nt num identifier
        let st1 := stepState st nt (determineStatus elem) nodeId
        let res := parseForest st1 cs hp nodeId
        (res.1, some (mkLegalNode nt elem parentPath parentId res.2))
/-- The child loop of `_parse_element`: children whose tag is recognized
are parsed and appended when a node is produced. -/
def parseForest : ParserState → XmlForest → String → String →
    ParserState × LegalForest
  | st, .nil, _, _ => (st, .nil)
  | st, .cons child rest, parentPath, parentId =>
    if (lookupNodeType child.tag).isSome then
      let r1 := parseElement st child parentPath (some parentId)
      let r2 := parseForest r1.1 rest parentPath parentId
      match r1.2 with
      | some n => (r2.1, .cons n r2.2)
      | none => (r2.1, r2.2)
    else parseForest st rest parentPath parentId
end

/-- Embedding of `models.ParsedTaxCode`: the parse result. -/
structure ParsedTaxCode where
  title : String
  root : LegalNode
  totalSections : Nat
  totalNodes : Nat
  repealedSections : List String

/-- The title-element lookup of `parse_file`: the first descendant named
`main` and its direct `title` child, else the first `title` descendant of
the root. -/
def findTitleElem (root : Xml) : Option Xml :=
  match findDescendant "main" root.children with
  | some mainEl =>
    match findChild "title" mainEl.children with
    | some t => some t
    | none => findDescendant "title" root.children
  | none => findDescendant "title" root.children

/-- Model of `USLMParser.parse_file` / `parse_tax_code`: an absent file
(`doc = none`) and a document without a locatable title element are
errors carrying no tree; otherwise the title element is parsed with fresh
counters. -/
def parseFile (maxSections : Option Nat) (doc : Option Xml) :
    Except String ParsedTaxCode :=
  match doc with
  | none => .error "XML file not found"
  | some root =>
    match findTitleElem root with
    | none => .error "Could not find title element in XML"
    | some titleElem =>
      let st0 : ParserState := ⟨maxSections, 0, 0, []⟩
      match parseElement st0 titleElem "" none with
      | (_, none) => .error "Failed to parse root title element"
      | (st, some rootNode) =>
        .ok ⟨"Title 26 - Internal Revenue Code", rootNode,
             st.sectionsParsed, st.totalNodes, st.repealedSections⟩

/-! ### Observation functions over the produced tree and the source
document, used to state the testable properties. -/

mutual
/-- Number of nodes reachable from a node, itself included. -/
def countNodes : LegalNode → Nat
  | .mk _ _ _ _ _ _ _ _ _ _ cs => 1 + countNodesF cs
/-- Total node count of a forest. -/
def countNodesF : LegalForest → Nat
  | .nil => 0
  | .cons n ns => countNodes n + countNodesF ns
end

mutual
/-- Pre-order list of the ids of the section-type nodes reachable from a
node. -/
def sectionIds : LegalNode → List String
  | .mk i _ nt _ _ _ _ _ _ _ cs =>
    (if nt = .SECTION then [i] else []) ++ sectionIdsF cs
/-- Pre-order section ids of a forest. -/
def sectionIdsF : LegalForest → List String
  | .nil => []
  | .cons n ns => sectionIds n ++ sectionIdsF ns
end

/-- Number of reachable nodes whose type is `section`. -/
def countSections (n : LegalNode) : Nat := (sectionIds n).length

mutual
/-- Pre-order list of the ids of reachable nodes that are section-typed
and repealed. -/
def repealedSectionIds : LegalNode → List String
  | .mk i _ nt _ _ _ st _ _ _ cs =>
    (if nt = .SECTION ∧ st = .REPEALED then [i] else []) ++ repealedSectionIdsF cs
/-- Pre-order repealed-section ids of a forest. -/
def repealedSectionIdsF : LegalForest → List String
  | .nil => []
  | .cons n ns => repealedSectionIds n ++ repealedSectionIdsF ns
end

mutual
/-- Pre-order list of the ids of ALL reachable repealed nodes, whatever
their type. -/
def repealedIdsAnyType : LegalNode → List String
  | .mk i _ _ _ _ _ st _ _ _ cs =>
    (if st = .REPEALED then [i] else []) ++ repealedIdsAnyTypeF cs
/-- Pre-order repealed ids of a forest, any node type. -/
def repealedIdsAnyTypeF : LegalForest → List String
  | .nil => []
  | .cons n ns => repealedIdsAnyType n ++ repealedIdsAnyTypeF ns
end

/-- The citation id `_parse_element` derives for an element: it depends
only on the element itself. -/
def elemNodeId (nt : NodeType) (elem : Xml) : String :=
  buildCitationId nt (getTextContent elem "num")
    (match getAttr elem "identifier" with | some s => s | none => "")

mutual
/-- Pre-order list of the ids of the section-type elements the traversal
of `_parse_element` encounters below (and including) an element, were no
cutoff in force. -/
def xmlSectionIds : Xml → List String
  | .mk t a txt cs tl =>
    match lookupNodeType t with
    | none => []
    | some nt =>
      (if nt = .SECTION then [elemNodeId nt (.mk t a txt cs tl)] else []) ++
        xmlSectionIdsF cs
/-- Pre-order encountered section ids of a forest. -/
def xmlSectionIdsF : XmlForest → List String
  | .nil => []
  | .cons x xs => xmlSectionIds x ++ xmlSectionIdsF xs
end

/-- Node count of an optional parse result. -/
def countNodesOpt : Option LegalNode → Nat
  | none => 0
  | some n => countNodes n

/-- Section count of an optional parse result. -/
def countSectionsOpt : Option LegalNode → Nat
  | none => 0
  | some n => countSections n

/-- Section ids of an optional parse result. -/
def sectionIdsOpt : Option LegalNode → List String
  | none => []
  | some n => sectionIds n

/-- Repealed-section ids of an optional parse result. -/
def repealedSectionIdsOpt : Option LegalNode → List String
  | none => []
  | some n => repealedSectionIds n

/-! ### Concrete demonstration documents -/

/-- A `content` element holding the given text. -/
def contentOf (s : String) : Xml := .mk "content" [] (some s) .nil none

/-- A `num` element holding the given text. -/
def numOf (s : String) : Xml := .mk "num" [] (some s) .nil none

/-- Subsection (a) of the demonstration section 162. -/
def subsecA : Xml :=
  .mk "subsection" [("identifier", "/us/usc/t26/s162/a")] none
    (.cons (numOf "(a)") (.cons (contentOf "In general.") .nil)) none

/-- Demonstration section 162, with a subsection and a cross-reference in
its text. -/
def sec162 : Xml :=
  .mk "section" [("identifier", "/us/usc/t26/s162")] none
    (.cons (numOf "162") (.cons (contentOf "See section 7701 for definitions.")
      (.cons subsecA .nil))) none

/-- Demonstration section 163, repealed by body-text marker only (no
status attribute). -/
def sec163 : Xml :=
  .mk "section" [("identifier", "/us/usc/t26/s163")] none
    (.cons (numOf "163") (.cons (contentOf "[Repealed]") .nil)) none

/-- Demonstration section 164. -/
def sec164 : Xml :=
  .mk "section" [("identifier", "/us/usc/t26/s164")] none
    (.cons (numOf "164") (.cons (contentOf "Other rule.") .nil)) none

/-- Demonstration title element with three sections. -/
def titleDemo : Xml :=
  .mk "title" [("identifier", "/us/usc/t26")] none
    (.cons (numOf "Title 26") (.cons sec162 (.cons sec163 (.cons sec164 .nil)))) none

/-- Demonstration document: root, `main`, title. -/
def demoDoc : Xml :=
  .mk "uscDoc" [] none
    (.cons (.mk "main" [] none (.cons titleDemo .nil) none) .nil) none

/-- A fallback node used only to totalize projections out of `Except`. -/
def dummyNode : LegalNode := .mk "" "" .TITLE none none "" .ACTIVE none "" [] .nil

/-- A fallback parse result used only to totalize projections. -/
def dummyParsed : ParsedTaxCode := ⟨"", dummyNode, 0, 0, []⟩

/-- The successful result of a parse, or the fallback. -/
def okOr (r : Except String ParsedTaxCode) : ParsedTaxCode :=
  match r with
  | .ok p => p
  | .error _ => dummyParsed

example : (okOr (parseFile none (some demoDoc))).totalNodes = 5 := by rfl
example : (okOr (parseFile none (some demoDoc))).totalSections = 3 := by rfl
example : (okOr (parseFile none (some demoDoc))).repealedSections = ["26 USC 163"] := by rfl
example : (okOr (parseFile (some 0) (some demoDoc))).totalSections = 3 := by rfl
example : xmlSectionIds titleDemo = ["26 USC 162", "26 USC 163", "26 USC 164"] := by rfl
example : sectionIds (okOr (parseFile (some 2) (some demoDoc))).root =
    ["26 USC 162", "26 USC 163"] := by rfl

/-! ### Bookkeeping lemmas about one node-creation step -/

theorem stepState_maxSections (st : ParserState) (nt : NodeType) (s : NodeStatus)
    (i : String) : (stepState st nt s i).maxSections = st.maxSections := by
  simp only [stepState]
  split <;> rfl

theorem stepState_totalNodes (st : ParserState) (nt : NodeType) (s : NodeStatus)
    (i : String) : (stepState st nt s i).totalNodes = st.totalNodes + 1 := by
  simp only [stepState]
  split <;> rfl

theorem stepState_sectionsParsed (st : ParserState) (nt : NodeType) (s : NodeStatus)
    (i : String) :
    (stepState st nt s i).sectionsParsed =
      st.sectionsParsed + (if nt = .SECTION then 1 else 0) := by
  simp only [stepState]
  split <;> simp

theorem stepState_repealedSections (st : ParserState) (nt : NodeType) (s : NodeStatus)
    (i : String) :
    (stepState st nt s i).repealedSections =
      st.repealedSections ++ (if nt = .SECTION ∧ s = .REPEALED then [i] else []) := by
  simp only [stepState]
  by_cases hnt : nt = .SECTION <;> by_cases hs : s = .REPEALED <;>
    simp [hnt, hs]

theorem mkLegalNode_countNodes (nt : NodeType) (e : Xml) (pp : String)
    (pid : Option String) (kids : LegalForest) :
    countNodes (mkLegalNode nt e pp pid kids) = 1 + countNodesF kids := rfl

theorem mkLegalNode_sectionIds (nt : NodeType) (e : Xml) (pp : String)
    (pid : Option String) (kids : LegalForest) :
    sectionIds (mkLegalNode nt e pp pid kids) =
      (if nt = .SECTION then [elemNodeId nt e] else []) ++ sectionIdsF kids := rfl

theorem mkLegalNode_repealedSectionIds (nt : NodeType) (e : Xml) (pp : String)
    (pid : Option String) (kids : LegalForest) :
    repealedSectionIds (mkLegalNode nt e pp pid kids) =
      (if nt = .SECTION ∧ determineStatus e = .REPEALED then [elemNodeId nt e] else []) ++
        repealedSectionIdsF kids := rfl

/-! ### The traversal invariant: each call moves the counters by exactly
the contents of the subtree it materializes. -/

mutual
theorem parseElement_state : ∀ (st : ParserState) (e : Xml) (pp : String)
    (pid : Option String),
    (parseElement st e pp pid).1.maxSections = st.maxSections ∧
    (parseElement st e pp pid).1.totalNodes =
      st.totalNodes + countNodesOpt (parseElement st e pp pid).2 ∧
    (parseElement st e pp pid).1.sectionsParsed =
      st.sectionsParsed + countSectionsOpt (parseElement st e pp pid).2 ∧
    (parseElement st e pp pid).1.repealedSections =
      st.repealedSections ++ repealedSectionIdsOpt (parseElement st e pp pid).2
  | st, .mk t a txt cs tl, pp, pid => by
    have IH := fun st1 hp nodeId => parseForest_state st1 cs hp nodeId
    simp only [parseElement]
    split
    · simp [countNodesOpt, countSectionsOpt, repealedSectionIdsOpt]
    · split
      · simp [countNodesOpt, countSectionsOpt, repealedSectionIdsOpt]
      · rename_i nt _
        obtain ⟨ih1, ih2, ih3, ih4⟩ := IH _ _ _
        refine ⟨?_, ?_, ?_, ?_⟩
        · rw [ih1, stepState_maxSections]
        · rw [ih2, stepState_totalNodes]
          simp only [countNodesOpt, mkLegalNode_countNodes]
          omega
        · rw [ih3, stepState_sectionsParsed]
          simp only [countSectionsOpt, countSections, mkLegalNode_sectionIds,
            List.length_append]
          split
          · simp
            omega
          · simp
        · rw [ih4, stepState_repealedSections]
          simp only [repealedSectionIdsOpt, mkLegalNode_repealedSectionIds,
            elemNodeId, List.append_assoc]
theorem parseForest_state : ∀ (st : ParserState) (f : XmlForest) (pp : String)
    (pid : String),
    (parseForest st f pp pid).1.maxSections = st.maxSections ∧
    (parseForest st f pp pid).1.totalNodes =
      st.totalNodes + countNodesF (parseForest st f pp pid).2 ∧
    (parseForest st f pp pid).1.sectionsParsed =
      st.sectionsParsed + (sectionIdsF (parseForest st f pp pid).2).length ∧
    (parseForest st f pp pid).1.repealedSections =
      st.repealedSections ++ repealedSectionIdsF (parseForest st f pp pid).2
  | st, .nil, pp, pid => by
    simp [parseForest, countNodesF, sectionIdsF, repealedSectionIdsF]
  | st, .cons child rest, pp, pid => by
    have IHe := parseElement_state st child pp (some pid)
    have IHf := fun st1 => parseForest_state st1 rest pp pid
    simp only [parseForest]
    split
    · obtain ⟨e1, e2, e3, e4⟩ := IHe
      obtain ⟨f1, f2, f3, f4⟩ := IHf (parseElement st child pp (some pid)).1
      split
      · rename_i n hn
        simp only [hn, countNodesOpt, countSectionsOpt, repealedSectionIdsOpt]
          at e2 e3 e4
        dsimp only
        refine ⟨by rw [f1, e1], ?_, ?_, ?_⟩
        · simp only [countNodesF]
          omega
        · simp only [sectionIdsF, List.length_append, countSections] at *
          omega
        · simp only [repealedSectionIdsF]
          rw [f4, e4, List.append_assoc]
      · rename_i hn
        simp only [hn, countNodesOpt, countSectionsOpt, repealedSectionIdsOpt]
          at e2 e3 e4
        dsimp only
        refine ⟨by rw [f1, e1], by omega, by omega, ?_⟩
        rw [f4, e4]
        simp
    · exact IHf st
end


/-- Section count and section-id list of a result agree. -/
theorem countSectionsOpt_eq_length (o : Option LegalNode) :
    countSectionsOpt o = (sectionIdsOpt o).length := by
  cases o <;> rfl

/-- Helper: a successful `parseFile` run ends in the state produced by
parsing the title element from fresh counters, and returns its node. -/
theorem parseFile_ok_inv (ms : Option Nat) (doc : Option Xml) (res : ParsedTaxCode)
    (h : parseFile ms doc = .ok res) :
    ∃ root te, doc = some root ∧ findTitleElem root = some te ∧
      (parseElement ⟨ms, 0, 0, []⟩ te "" none).2 = some res.root ∧
      res.totalNodes = (parseElement ⟨ms, 0, 0, []⟩ te "" none).1.totalNodes ∧
      res.totalSections = (parseElement ⟨ms, 0, 0, []⟩ te "" none).1.sectionsParsed ∧
      res.repealedSections = (parseElement ⟨ms, 0, 0, []⟩ te "" none).1.repealedSections := by
  cases doc with
  | none => simp [parseFile] at h
  | some root =>
    cases hft : findTitleElem root with
    | none => simp [parseFile, hft] at h
    | some te =>
      refine ⟨root, te, rfl, hft, ?_⟩
      cases hpe : (parseElement ⟨ms, 0, 0, []⟩ te "" none).2 with
      | none =>
        exfalso
        simp only [parseFile, hft] at h
        rw [show (parseElement ⟨ms, 0, 0, []⟩ te "" none) =
          ((parseElement ⟨ms, 0, 0, []⟩ te "" none).1,
           (parseElement ⟨ms, 0, 0, []⟩ te "" none).2) from rfl, hpe] at h
        simp at h
      | some rn =>
        simp only [parseFile, hft] at h
        rw [show (parseElement ⟨ms, 0, 0, []⟩ te "" none) =
          ((parseElement ⟨ms, 0, 0, []⟩ te "" none).1,
           (parseElement ⟨ms, 0, 0, []⟩ te "" none).2) from rfl, hpe] at h
        simp only [Except.ok.injEq] at h
        rw [← h]
        exact ⟨rfl, rfl, rfl, rfl⟩

/-- C4: for every successfully parsed document, `totalNodes` equals the
number of nodes reachable from the root (root included) and
`totalSections` equals the number of reachable section-type nodes. -/
theorem parseFile_totals (ms : Option Nat) (doc : Option Xml) (res : ParsedTaxCode)
    (h : parseFile ms doc = .ok res) :
    res.totalNodes = countNodes res.root ∧ res.totalSections = countSections res.root := by
  obtain ⟨root, te, -, -, hroot, hn, hs, -⟩ := parseFile_ok_inv ms doc res h
  obtain ⟨-, e2, e3, -⟩ := parseElement_state ⟨ms, 0, 0, []⟩ te "" none
  rw [hroot] at e2 e3
  simp only [countNodesOpt, countSectionsOpt] at e2 e3
  constructor
  · rw [hn, e2, Nat.zero_add]
  · rw [hs, e3, Nat.zero_add]

/-- The fully evaluated parse of the demonstration document. -/
def demoParsed : ParsedTaxCode := okOr (parseFile none (some demoDoc))

/-- Witness for C4: on the demonstration document the theorem applies and
the counts are the concrete ones. -/
theorem parseFile_totals_witness :
    parseFile none (some demoDoc) = .ok demoParsed ∧
    demoParsed.totalNodes = countNodes demoParsed.root ∧
    demoParsed.totalSections = countSections demoParsed.root :=
  ⟨rfl, parseFile_totals none (some demoDoc) demoParsed rfl⟩

/-- C5 (amended): `repealedSections` is exactly the pre-order list of ids
of reachable nodes that are section-typed AND repealed. -/
theorem parseFile_repealed (ms : Option Nat) (doc : Option Xml) (res : ParsedTaxCode)
    (h : parseFile ms doc = .ok res) :
    res.repealedSections = repealedSectionIds res.root := by
  obtain ⟨root, te, -, -, hroot, -, -, hr⟩ := parseFile_ok_inv ms doc res h
  obtain ⟨-, -, -, e4⟩ := parseElement_state ⟨ms, 0, 0, []⟩ te "" none
  rw [hroot] at e4
  simp only [repealedSectionIdsOpt] at e4
  rw [hr, e4]
  simp

/-- A subsection repealed by text marker, inside an active section, for
the C5 counterexample. -/
def subsecRepealed : Xml :=
  .mk "subsection" [("identifier", "/us/usc/t26/s165/a")] none
    (.cons (numOf "(a)") (.cons (contentOf "[Repealed]") .nil)) none

/-- Demonstration section 165, active, containing a repealed subsection. -/
def sec165 : Xml :=
  .mk "section" [("identifier", "/us/usc/t26/s165")] none
    (.cons (numOf "165") (.cons (contentOf "General rule.")
      (.cons subsecRepealed .nil))) none

/-- Document for the C5 counterexample. -/
def c5doc : Xml :=
  .mk "uscDoc" [] none
    (.cons (.mk "main" [] none
      (.cons (.mk "title" [("identifier", "/us/usc/t26")] none
        (.cons (numOf "Title 26") (.cons sec165 .nil)) none) .nil) none) .nil) none

/-- The evaluated parse of the C5 counterexample document. -/
def c5res : ParsedTaxCode := okOr (parseFile none (some c5doc))

/-- C5 counterexample: the tree contains a node (the subsection
`26 USC 165(a)`) whose classified status is repealed, yet
`repealedSections` is empty — the id of a repealed non-section node is
NOT appended, contradicting "regardless of the node's type". -/
theorem repealed_subsection_not_recorded :
    parseFile none (some c5doc) = .ok c5res ∧
    repealedIdsAnyType c5res.root = ["26 USC 165(a)"] ∧
    c5res.repealedSections = [] :=
  ⟨rfl, rfl, rfl⟩

/-- Witness for C5 (amended): on the demonstration document — whose
section 163 has no status attribute and is classified repealed from the
body text `[Repealed]` — the theorem applies, and the repealed list is
exactly that section's id. -/
theorem parseFile_repealed_witness :
    parseFile none (some demoDoc) = .ok demoParsed ∧
    demoParsed.repealedSections = repealedSectionIds demoParsed.root ∧
    demoParsed.repealedSections = ["26 USC 163"] :=
  ⟨rfl, parseFile_repealed none (some demoDoc) demoParsed rfl, rfl⟩

/-- The evaluated parse of the demonstration document with cutoff 0. -/
def c3res : ParsedTaxCode := okOr (parseFile (some 0) (some demoDoc))

/-- C3 counterexample: with cutoff k = 0 the guard
`if self.max_sections and ...` is falsy, the cutoff is disabled, and all
3 sections are materialized, so `totalSections ≤ k` fails. -/
theorem parseFile_cutoff_zero_counterexample :
    parseFile (some 0) (some demoDoc) = .ok c3res ∧
    c3res.totalSections = 3 ∧ ¬ c3res.totalSections ≤ 0 :=
  ⟨rfl, rfl, by decide⟩

/-- An element with an unrecognized tag is never traversed, so it
contributes no encountered sections. -/
theorem xmlSectionIds_of_unrecognized (x : Xml) (h : lookupNodeType x.tag = none) :
    xmlSectionIds x = [] := by
  cases x with
  | mk t a txt cs tl =>
    simp only [Xml.tag] at h
    simp [xmlSectionIds, h]

mutual
/-- With a positive cutoff `m`, a call to `_parse_element` materializes
exactly the first `m - sections_parsed` sections it would encounter in
pre-order. -/
theorem parseElement_cutoff : ∀ (m : Nat) (st : ParserState) (e : Xml) (pp : String)
    (pid : Option String), 1 ≤ m → st.maxSections = some m →
    st.sectionsParsed ≤ m →
    sectionIdsOpt (parseElement st e pp pid).2 =
      (xmlSectionIds e).take (m - st.sectionsParsed)
  | m, st, .mk t a txt cs tl, pp, pid => by
    intro hm hmax hle
    simp only [parseElement]
    split
    · rename_i hcut
      rw [cutoffReached] at hcut
      rw [hmax] at hcut
      simp only [Bool.and_eq_true, decide_eq_true_eq] at hcut
      have h0 : m - st.sectionsParsed = 0 := by omega
      simp [sectionIdsOpt, h0]
    · rename_i hcut
      rw [cutoffReached] at hcut
      rw [hmax] at hcut
      simp only [Bool.and_eq_true, decide_eq_true_eq, not_and, not_le] at hcut
      have hlt : st.sectionsParsed < m := hcut (by omega)
      split
      · rename_i hlk
        simp [sectionIdsOpt, xmlSectionIds, hlk]
      · rename_i nt hlk
        have hmax1 : (stepState st nt (determineStatus (Xml.mk t a txt cs tl))
            (buildCitationId nt (getTextContent (Xml.mk t a txt cs tl) "num")
              (match getAttr (Xml.mk t a txt cs tl) "identifier" with
               | some s => s | none => ""))).maxSections = some m := by
          rw [stepState_maxSections, hmax]
        by_cases hsec : nt = NodeType.SECTION
        · subst hsec
          have hsp : (stepState st NodeType.SECTION
              (determineStatus (Xml.mk t a txt cs tl))
              (buildCitationId NodeType.SECTION
                (getTextContent (Xml.mk t a txt cs tl) "num")
                (match getAttr (Xml.mk t a txt cs tl) "identifier" with
                 | some s => s | none => ""))).sectionsParsed =
              st.sectionsParsed + 1 := by
            rw [stepState_sectionsParsed]
            simp
          have IH : ∀ (st1 : ParserState) (hp nodeId : String),
              st1.maxSections = some m →
              st1.sectionsParsed = st.sectionsParsed + 1 →
              sectionIdsF (parseForest st1 cs hp nodeId).2 =
                (xmlSectionIdsF cs).take (m - (st.sectionsParsed + 1)) := by
            intro st1 hp nodeId h1 h2
            have hrec := parseForest_cutoff m st1 cs hp nodeId hm h1 (by omega)
            rwa [h2] at hrec
          simp only [sectionIdsOpt, mkLegalNode_sectionIds, if_pos rfl]
          rw [IH _ _ _ hmax1 hsp]
          simp only [xmlSectionIds, hlk, if_pos rfl, elemNodeId]
          have harith : m - st.sectionsParsed = (m - (st.sectionsParsed + 1)) + 1 := by
            omega
          rw [harith]
          simp [List.take_succ_cons]
        · have hsp : (stepState st nt (determineStatus (Xml.mk t a txt cs tl))
              (buildCitationId nt (getTextContent (Xml.mk t a txt cs tl) "num")
                (match getAttr (Xml.mk t a txt cs tl) "identifier" with
                 | some s => s | none => ""))).sectionsParsed =
              st.sectionsParsed := by
            rw [stepState_sectionsParsed]
            simp [hsec]
          have IH : ∀ (st1 : ParserState) (hp nodeId : String),
              st1.maxSections = some m →
              st1.sectionsParsed = st.sectionsParsed →
              sectionIdsF (parseForest st1 cs hp nodeId).2 =
                (xmlSectionIdsF cs).take (m - st.sectionsParsed) := by
            intro st1 hp nodeId h1 h2
            have hrec := parseForest_cutoff m st1 cs hp nodeId hm h1 (by omega)
            rwa [h2] at hrec
          simp only [sectionIdsOpt, mkLegalNode_sectionIds, if_neg hsec]
          rw [IH _ _ _ hmax1 hsp]
          simp [xmlSectionIds, hlk, if_neg hsec]
theorem parseForest_cutoff : ∀ (m : Nat) (st : ParserState) (f : XmlForest)
    (pp pid : String), 1 ≤ m → st.maxSections = some m →
    st.sectionsParsed ≤ m →
    sectionIdsF (parseForest st f pp pid).2 =
      (xmlSectionIdsF f).take (m - st.sectionsParsed)
  | m, st, .nil, pp, pid => by
    intro hm hmax hle
    simp [parseForest, sectionIdsF, xmlSectionIdsF]
  | m, st, .cons child rest, pp, pid => by
    intro hm hmax hle
    have IHe := parseElement_cutoff m st child pp (some pid) hm hmax hle
    obtain ⟨e1, -, e3, -⟩ := parseElement_state st child pp (some pid)
    simp only [parseForest]
    split
    · rename_i hrec
      have hmax1 : (parseElement st child pp (some pid)).1.maxSections = some m := by
        rw [e1, hmax]
      have hlen : (sectionIdsOpt (parseElement st child pp (some pid)).2).length =
          min (m - st.sectionsParsed) (xmlSectionIds child).length := by
        rw [IHe, List.length_take]
      have hsp1 : (parseElement st child pp (some pid)).1.sectionsParsed =
          st.sectionsParsed + (sectionIdsOpt (parseElement st child pp (some pid)).2).length := by
        rw [e3, countSectionsOpt_eq_length]
      have IHf := parseForest_cutoff m _ rest pp pid hm hmax1 (by omega)
      rw [hsp1, hlen] at IHf
      have harith : m - (st.sectionsParsed +
          min (m - st.sectionsParsed) (xmlSectionIds child).length) =
          (m - st.sectionsParsed) - (xmlSectionIds child).length := by omega
      rw [harith] at IHf
      have hsplit : (xmlSectionIdsF (.cons child rest)).take (m - st.sectionsParsed) =
          (xmlSectionIds child).take (m - st.sectionsParsed) ++
          (xmlSectionIdsF rest).take ((m - st.sectionsParsed) - (xmlSectionIds child).length) := by
        simp only [xmlSectionIdsF]
        exact List.take_append_eq_append_take
      rw [hsplit, ← IHe, ← IHf]
      split
      · rename_i n hn
        rw [hn]
        simp [sectionIdsOpt, sectionIdsF]
      · rename_i hn
        rw [hn]
        simp [sectionIdsOpt, sectionIdsF]
    · rename_i hrec
      have hnone : lookupNodeType child.tag = none := by
        cases hh : lookupNodeType child.tag with
        | none => rfl
        | some v => rw [hh] at hrec; simp at hrec
      have IHf := parseForest_cutoff m st rest pp pid hm hmax hle
      rw [IHf]
      simp only [xmlSectionIdsF]
      rw [xmlSectionIds_of_unrecognized child hnone]
      simp
end

/-- C3 (amended): for every positive cutoff `k` (a cutoff of 0 is falsy
in the guard and disables the limit), a successful parse has
`totalSections ≤ k`, and the sections present in the tree are exactly the
first `k` section elements encountered in pre-order — no section beyond
the k-th is materialized. -/
theorem parseFile_cutoff_spec (k : Nat) (hk : 1 ≤ k) (doc : Option Xml)
    (res : ParsedTaxCode) (h : parseFile (some k) doc = .ok res) :
    res.totalSections ≤ k ∧
    ∃ root te, doc = some root ∧ findTitleElem root = some te ∧
      sectionIds res.root = (xmlSectionIds te).take k := by
  obtain ⟨root, te, hdoc, hft, hroot, -, hs, -⟩ :=
    parseFile_ok_inv (some k) doc res h
  have hcut := parseElement_cutoff k ⟨some k, 0, 0, []⟩ te "" none hk rfl
    (by simp)
  rw [hroot] at hcut
  simp only [sectionIdsOpt, Nat.sub_zero] at hcut
  obtain ⟨-, -, e3, -⟩ := parseElement_state ⟨some k, 0, 0, []⟩ te "" none
  rw [hroot] at e3
  simp only [countSectionsOpt, countSections] at e3
  constructor
  · rw [hs, e3, Nat.zero_add, hcut, List.length_take]
    omega
  · exact ⟨root, te, hdoc, hft, hcut⟩

/-- The evaluated parse of the demonstration document with cutoff 2. -/
def c3res2 : ParsedTaxCode := okOr (parseFile (some 2) (some demoDoc))

/-- Witness for C3 (amended): cutoff 2 on the 3-section demonstration
document keeps only the first two pre-order sections. -/
theorem parseFile_cutoff_spec_witness :
    parseFile (some 2) (some demoDoc) = .ok c3res2 ∧
    c3res2.totalSections ≤ 2 ∧
    sectionIds c3res2.root = ["26 USC 162", "26 USC 163"] ∧
    xmlSectionIds titleDemo = ["26 USC 162", "26 USC 163", "26 USC 164"] :=
  ⟨rfl, (parseFile_cutoff_spec 2 (by decide) (some demoDoc) c3res2 rfl).1, rfl, rfl⟩

/-- C1 (evaluation at the failing input): on a text containing
"as defined in section 162" and "section 162" twice, extraction yields
exactly one reference with target "162" — but its type is `general`, not
`definition`: the plain `section X` pattern is first in
`SECTION_REFERENCE_PATTERNS` and captures "162", and the
designator-keyed dedup then suppresses the later `definition` match. -/
theorem extract_references_definition_shadowed :
    extract_references "as defined in section 162 applies when section 162 holds" =
      [{ target_section := "162",
         context := "...as defined in section 162 applies when section 162 hold...",
         reference_type := "general" }] := rfl

/-- C2 (evaluation at the failing input): the example derivation
`/us/usc/t26/s162/a → 26 USC 162(a)` holds, but a subtitle segment is
not skipped: `startswith("s")` is tested before the subtitle branch, so
`stA` starts section accumulation and leaks `tA` into the citation. -/
theorem buildCitationId_subtitle_not_skipped :
    buildCitationId .SUBSECTION (some "(a)") "/us/usc/t26/s162/a" = "26 USC 162(a)" ∧
    buildCitationId .SECTION none "/us/usc/t26/stA/s162/a" = "26 USC tA162(a)" :=
  ⟨rfl, rfl⟩

/-- Every branch of the fallback tail yields the fixed code prefix. -/
theorem citationFallback_always_usc (num : Option String) (identifier : String) :
    ∃ suffix : List Char,
      (citationFallback num identifier).data = "26 USC ".data ++ suffix :=
  ⟨citationFallbackSuffix num identifier, rfl⟩

/-- C10: for every node type, declared number, and identifier path, the
derived citation id begins with the literal prefix `26 USC ` — all
branches, both fallbacks included, produce the fixed code prefix. -/
theorem buildCitationId_always_usc (nt : NodeType) (num : Option String)
    (identifier : String) :
    ∃ suffix : List Char,
      (buildCitationId nt num identifier).data = "26 USC ".data ++ suffix := by
  simp only [buildCitationId]
  split
  · exact ⟨_, rfl⟩
  · split
    · split
      · exact citationFallback_always_usc num identifier
      · exact ⟨_, rfl⟩
    · exact citationFallback_always_usc num identifier

/-- The status rules in the claim's order: three attribute rules, then
two textual rules; each pairs its condition with the resulting status. -/
def statusRules (statusAttr lowText : List Char) : List (Bool × NodeStatus) :=
  [(containsSub "repeal".data statusAttr, .REPEALED),
   (containsSub "expired".data statusAttr, .EXPIRED),
   (containsSub "reserved".data statusAttr, .RESERVED),
   (containsSub "[repealed".data lowText || containsSub "repealed.".data lowText,
     .REPEALED),
   (containsSub "[expired".data lowText, .EXPIRED)]

/-- First-match-wins evaluation of a rule list, defaulting to active. -/
def firstMatchStatus : List (Bool × NodeStatus) → NodeStatus
  | [] => .ACTIVE
  | (b, s) :: rest => if b then s else firstMatchStatus rest

/-- Modelled from the claim's words: exactly one status, decided
first-match-wins over the ordered rule list, attribute rules before
textual rules (attribute evidence outranks textual evidence), default
active.  Containment is on the lower-cased attribute and text, as the
code lower-cases both before testing. -/
def claimStatus (elem : Xml) : NodeStatus :=
  firstMatchStatus (statusRules
    (pyLower (match getAttr elem "status" with | some s => s.data | none => []))
    (pyLower (extractText elem)))

/-- C6: the status classifier agrees with the claim's ordered
first-match-wins rule list on every element. -/
theorem determineStatus_follows_claim (elem : Xml) :
    determineStatus elem = claimStatus elem := rfl

/-- A child found by tag search carries that tag. -/
theorem findChild_tag (name : String) : ∀ (f : XmlForest) (x : Xml),
    findChild name f = some x → x.tag = name
  | .nil, x => by simp [findChild]
  | .cons y ys, x => by
    simp only [findChild]
    split
    · rename_i h
      intro he
      cases he
      exact h
    · exact findChild_tag name ys x

mutual
/-- A descendant found by tag search carries that tag. -/
theorem findDescendant_tag (name : String) : ∀ (f : XmlForest) (x : Xml),
    findDescendant name f = some x → x.tag = name
  | .nil, x => by simp [findDescendant]
  | .cons y ys, x => by
    simp only [findDescendant]
    cases h : findSelfOrDescendant name y with
    | some r =>
      intro he
      cases he
      exact findSelfOrDescendant_tag name y x h
    | none => exact findDescendant_tag name ys x
/-- A self-or-descendant found by tag search carries that tag. -/
theorem findSelfOrDescendant_tag (name : String) : ∀ (x r : Xml),
    findSelfOrDescendant name x = some r → r.tag = name
  | .mk t a txt cs tl, r => by
    simp only [findSelfOrDescendant]
    split
    · rename_i h
      intro he
      cases he
      simpa [Xml.tag] using h
    · exact findDescendant_tag name cs r
end

/-- The title lookup only ever returns elements tagged `title`. -/
theorem findTitleElem_tag (root te : Xml) (h : findTitleElem root = some te) :
    te.tag = "title" := by
  unfold findTitleElem at h
  split at h
  · split at h
    · rename_i hc
      cases h
      exact findChild_tag "title" _ te hc
    · exact findDescendant_tag "title" root.children te h
  · exact findDescendant_tag "title" root.children te h

/-- Fresh counters never trip the cutoff guard. -/
theorem cutoffReached_initial (ms : Option Nat) :
    cutoffReached ⟨ms, 0, 0, []⟩ = false := by
  unfold cutoffReached
  cases ms with
  | none => rfl
  | some m =>
    cases m with
    | zero => rfl
    | succ n => rfl

/-- C8: parsing an absent file fails; a document whose title element
cannot be located fails, returning no tree; and whenever the title
element is found the parse succeeds — no anomaly below the root aborts
it. -/
theorem parseFile_error_spec (ms : Option Nat) :
    parseFile ms none = .error "XML file not found" ∧
    (∀ root : Xml, findTitleElem root = none →
      parseFile ms (some root) = .error "Could not find title element in XML") ∧
    (∀ root te : Xml, findTitleElem root = some te →
      ∃ res : ParsedTaxCode, parseFile ms (some root) = .ok res) := by
  refine ⟨rfl, ?_, ?_⟩
  · intro root h
    simp [parseFile, h]
  · intro root te h
    have htag := findTitleElem_tag root te h
    cases te with
    | mk t a txt cs tl =>
      simp only [Xml.tag] at htag
      subst htag
      simp only [parseFile, h, parseElement, cutoffReached_initial]
      exact ⟨_, rfl⟩

/-- A document whose structural elements carry no `title` tag, for the
C8 witness. -/
def noTitleDoc : Xml :=
  .mk "uscDoc" [] none (.cons (.mk "main" [] none .nil none) .nil) none

/-- Witness for C8: the missing file, a title-less document, and the
demonstration document discharge the three clauses concretely. -/
theorem parseFile_error_spec_witness :
    parseFile none none = .error "XML file not found" ∧
    parseFile none (some noTitleDoc) = .error "Could not find title element in XML" ∧
    ∃ res : ParsedTaxCode, parseFile none (some demoDoc) = .ok res :=
  ⟨(parseFile_error_spec none).1,
   (parseFile_error_spec none).2.1 noTitleDoc rfl,
   (parseFile_error_spec none).2.2 demoDoc titleDemo rfl⟩

/-! ### Table rendering properties (C9) -/

/-- The pipe-escaping step of `_table_to_markdown`
(`cell_text.replace("|", "\\|")`). -/
def escapePipes (cs : List Char) : List Char :=
  cs.foldr (fun c acc => if c = '|' then '\\' :: '|' :: acc else c :: acc) []

/-- Checks that every pipe character is immediately preceded by a
backslash (so it cannot be read as a column delimiter). -/
def escapedOk : List Char → Bool
  | [] => true
  | '|' :: _ => false
  | '\\' :: '|' :: cs => escapedOk cs
  | _ :: cs => escapedOk cs

/-- Number of unescaped pipes in a rendered line; the previous character
is tracked to skip `\|`. -/
def unescapedPipesAux : Option Char → List Char → Nat
  | _, [] => 0
  | prev, c :: cs =>
    (if c = '|' ∧ prev ≠ some '\\' then 1 else 0) + unescapedPipesAux (some c) cs

/-- Column count of a rendered markdown row: its unescaped pipes minus
one. -/
def countCols (line : List Char) : Nat := unescapedPipesAux none line - 1

/-- Split a rendered block into its lines. -/
def splitLines : List Char → List (List Char)
  | [] => [[]]
  | c :: cs =>
    if c = '\n' then [] :: splitLines cs
    else
      match splitLines cs with
      | h :: t => (c :: h) :: t
      | [] => [[c]]

/-- Whether all numbers in a list are equal. -/
def allSameNat : List Nat → Bool
  | [] => true
  | n :: ns => ns.all (fun m => m = n)

/-- Unfolding lemma: `cellText` is the escape step applied to the stripped cell text. -/
theorem cellText_eq (cell : Xml) :
    cellText cell = escapePipes (pyStrip (itertext cell)) := rfl

/-- The escape step leaves no unescaped pipe, and never emits a leading
pipe. -/
theorem escapePipes_ok : ∀ cs : List Char,
    escapedOk (escapePipes cs) = true ∧ ∀ rest, escapePipes cs ≠ '|' :: rest
  | [] => ⟨rfl, by simp [escapePipes]⟩
  | c :: cs => by
    obtain ⟨ih1, ih2⟩ := escapePipes_ok cs
    by_cases hc : c = '|'
    · subst hc
      refine ⟨?_, ?_⟩
      · show escapedOk ('\\' :: '|' :: escapePipes cs) = true
        simpa [escapedOk] using ih1
      · intro rest
        show '\\' :: '|' :: escapePipes cs ≠ '|' :: rest
        simp
    · have hstep : escapePipes (c :: cs) = c :: escapePipes cs := by
        show (if c = '|' then '\\' :: '|' :: escapePipes cs
          else c :: escapePipes cs) = c :: escapePipes cs
        rw [if_neg hc]
      rw [hstep]
      refine ⟨?_, ?_⟩
      · cases he : escapePipes cs with
        | nil => simp [escapedOk, hc]
        | cons d ds =>
          have hd : d ≠ '|' := by
            intro hdp
            exact ih2 ds (by rw [he, hdp])
          rw [he] at ih1
          simp [escapedOk, hc, hd, ih1]
      · intro rest
        simp [hc]

/-- Cells produced by `tableRows` all come out of the escape step. -/
theorem tableRows_cells_escaped (table : Xml) :
    ∀ row ∈ tableRows table, ∀ cell ∈ row, escapedOk cell = true := by
  intro row hrow cell hcell
  simp only [tableRows, List.mem_filterMap] at hrow
  obtain ⟨e, -, he⟩ := hrow
  split at he
  · split at he
    · exact absurd he (by simp)
    · rw [Option.some.injEq] at he
      subst he
      simp only [rowCells, List.mem_filterMap] at hcell
      obtain ⟨c0, -, hc0⟩ := hcell
      split at hc0
      · rw [Option.some.injEq] at hc0
        subst hc0
        rw [cellText_eq]
        exact (escapePipes_ok _).1
      · exact absurd hc0 (by simp)
  · exact absurd he (by simp)

/-- A two-row table whose second row has more cells than the header, for
the C9 counterexample. -/
def unevenTable : Xml :=
  .mk "table" [] none
    (.cons (.mk "tr" [] none (.cons (.mk "td" [] (some "a") .nil none) .nil) none)
      (.cons (.mk "tr" [] none (.cons (.mk "td" [] (some "b") .nil none)
        (.cons (.mk "td" [] (some "c") .nil none) .nil)) none) .nil)) none

/-- C9 counterexample: a data row longer than the header is neither
padded nor trimmed, so the rendered rows do NOT all have the same column
count (1, 1 and 2 columns here). -/
theorem tableToMarkdown_uneven_counterexample :
    tableToMarkdown unevenTable = "| a |\n| --- |\n| b | c |".data ∧
    (splitLines (tableToMarkdown unevenTable)).map countCols = [1, 1, 2] ∧
    allSameNat ((splitLines (tableToMarkdown unevenTable)).map countCols) = false :=
  ⟨rfl, rfl, rfl⟩

/-- C9 (amended): conversion renders the first collected row as the
header, then a separator with the header's column count, then the
remaining rows right-padded with empty cells to the header width; every
cell has its literal pipes escaped; and when no row is longer than the
header, all rendered rows have the same column count. -/
theorem tableToMarkdown_spec (table : Xml) (r0 : List (List Char))
    (rest : List (List (List Char)))
    (h : tableRows table = r0 :: rest)
    (hshort : ∀ r ∈ rest, r.length ≤ r0.length) :
    mdRows (tableRows table) =
      r0 :: List.replicate r0.length "---".data ::
        rest.map (fun r => padRow r r0.length) ∧
    ((mdRows (tableRows table)).map List.length).all
      (fun n => n = r0.length) = true ∧
    (∀ row ∈ tableRows table, ∀ cell ∈ row, escapedOk cell = true) ∧
    tableToMarkdown table =
      List.intercalate "\n".data ((mdRows (tableRows table)).map joinPipes) := by
  refine ⟨by rw [h]; rfl, ?_, tableRows_cells_escaped table, rfl⟩
  rw [h]
  simp only [mdRows, List.map_cons, List.map_map, List.all_cons, List.all_eq_true,
    List.length_replicate, decide_eq_true_eq, List.mem_map, Function.comp]
  simp only [decide_True, Bool.true_and, List.all_eq_true, List.mem_map,
    Function.comp, decide_eq_true_eq]
  rintro n ⟨r, hr, rfl⟩
  simp only [padRow, List.length_append, List.length_replicate]
  have := hshort r hr
  omega

/-- The specification's round-trip example: a two-row, two-column table
with a pipe character inside one cell. -/
def pipeTable : Xml :=
  .mk "table" [] none
    (.cons (.mk "tr" [] none (.cons (.mk "td" [] (some "x|y") .nil none)
      (.cons (.mk "td" [] (some "b") .nil none) .nil)) none)
      (.cons (.mk "tr" [] none (.cons (.mk "td" [] (some "c") .nil none)
        (.cons (.mk "td" [] (some "d") .nil none) .nil)) none) .nil)) none

/-- Witness for C9 (amended): on the round-trip example the pipe is
escaped in the output and all rendered rows have two columns. -/
theorem tableToMarkdown_spec_witness :
    tableRows pipeTable = ["x\\|y".data, "b".data] :: [["c".data, "d".data]] ∧
    ((mdRows (tableRows pipeTable)).map List.length).all
      (fun n => n = (["x\\|y".data, "b".data] : List (List Char)).length) = true ∧
    tableToMarkdown pipeTable = "| x\\|y | b |\n| --- | --- |\n| c | d |".data :=
  ⟨rfl,
   (tableToMarkdown_spec pipeTable ["x\\|y".data, "b".data] [["c".data, "d".data]]
     rfl (by decide)).2.1,
   rfl⟩

/-! ### Idempotence of text normalization (C7) -/

/-- Entity decoding is the identity on text with no ampersand. -/
theorem unescapeAux_no_amp : ∀ (fuel : Nat) (cs : List Char),
    '&' ∉ cs → unescapeAux fuel cs = cs
  | fuel, [] => by
    intro _
    cases fuel <;> rfl
  | 0, c :: cs => by intro _; rfl
  | fuel + 1, c :: cs => by
    intro h
    have hc : c ≠ '&' := fun he => h (he ▸ List.mem_cons_self c cs)
    have hcs : '&' ∉ cs := fun hm => h (List.mem_cons_of_mem c hm)
    show (if c = '&' then _ else c :: unescapeAux fuel cs) = c :: cs
    rw [if_neg hc, unescapeAux_no_amp fuel cs hcs]

/-- Entity decoding (at standard fuel) is the identity on text with no
ampersand. -/
theorem unescapeChars_no_amp (cs : List Char) (h : '&' ∉ cs) :
    unescapeChars cs = cs :=
  unescapeAux_no_amp cs.length cs h

/-- Every character the whitespace collapse emits is either the single
replacement space or a non-whitespace character of the input. -/
theorem mem_collapseWsAux : ∀ (b : Bool) (cs : List Char) (c : Char),
    c ∈ collapseWsAux b cs → c = ' ' ∨ (c ∈ cs ∧ pyIsSpace c = false)
  | b, [], c => by intro h; exact absurd h (by simp [collapseWsAux])
  | b, d :: cs, c => by
    intro h
    by_cases hd : pyIsSpace d
    · cases b with
      | true =>
        simp only [collapseWsAux, if_pos hd] at h
        rcases mem_collapseWsAux true cs c h with h1 | ⟨h2, h3⟩
        · exact Or.inl h1
        · exact Or.inr ⟨List.mem_cons_of_mem d h2, h3⟩
      | false =>
        simp only [collapseWsAux, if_pos hd] at h
        rcases List.mem_cons.mp h with h1 | h1
        · exact Or.inl h1
        · rcases mem_collapseWsAux true cs c h1 with h2 | ⟨h3, h4⟩
          · exact Or.inl h2
          · exact Or.inr ⟨List.mem_cons_of_mem d h3, h4⟩
    · simp only [collapseWsAux, if_neg hd] at h
      rcases List.mem_cons.mp h with h1 | h1
      · subst h1
        exact Or.inr ⟨List.mem_cons_self c cs, by simpa using hd⟩
      · rcases mem_collapseWsAux false cs c h1 with h2 | ⟨h3, h4⟩
        · exact Or.inl h2
        · exact Or.inr ⟨List.mem_cons_of_mem d h3, h4⟩

/-- In skip state the collapse never emits a leading whitespace
character. -/
theorem collapseWsAux_true_head : ∀ (cs : List Char) (d : Char) (ds : List Char),
    collapseWsAux true cs = d :: ds → pyIsSpace d = false
  | [], d, ds => by intro h; exact absurd h (by simp [collapseWsAux])
  | c :: cs, d, ds => by
    intro h
    by_cases hc : pyIsSpace c
    · simp only [collapseWsAux, if_pos hc] at h
      exact collapseWsAux_true_head cs d ds h
    · simp only [collapseWsAux, if_neg hc] at h
      rw [List.cons.injEq] at h
      rw [← h.1]
      simpa using hc

/-- There are never two adjacent spaces after one step of the scanner. -/
def noTwoSpaces : List Char → Bool
  | [] => true
  | ' ' :: ' ' :: _ => false
  | _ :: cs => noTwoSpaces cs

/-- Dropping the head preserves the no-adjacent-spaces property. -/
theorem noTwoSpaces_tail (c : Char) (cs : List Char)
    (h : noTwoSpaces (c :: cs) = true) : noTwoSpaces cs = true := by
  by_cases hc : c = ' '
  · subst hc
    cases cs with
    | nil => rfl
    | cons d ds =>
      by_cases hd : d = ' '
      · subst hd
        simp [noTwoSpaces] at h
      · simpa [noTwoSpaces, hd] using h
  · cases cs with
    | nil => rfl
    | cons d ds => simpa [noTwoSpaces, hc] using h

/-- The collapse scanner never produces two adjacent spaces. -/
theorem noTwoSpaces_collapseWsAux : ∀ (b : Bool) (cs : List Char),
    noTwoSpaces (collapseWsAux b cs) = true
  | b, [] => by cases b <;> rfl
  | b, c :: cs => by
    by_cases hc : pyIsSpace c
    · cases b with
      | true =>
        simp only [collapseWsAux, if_pos hc]
        exact noTwoSpaces_collapseWsAux true cs
      | false =>
        simp only [collapseWsAux, if_pos hc]
        cases he : collapseWsAux true cs with
        | nil => rfl
        | cons d ds =>
          have hd : pyIsSpace d = false := collapseWsAux_true_head cs d ds he
          have hd' : d ≠ ' ' := by
            intro hdd
            rw [hdd] at hd
            simp [pyIsSpace] at hd
          have := noTwoSpaces_collapseWsAux true cs
          rw [he] at this
          simpa [noTwoSpaces, hd'] using this
    · simp only [collapseWsAux, if_neg hc]
      have hc' : c ≠ ' ' := by
        intro hcc
        rw [hcc] at hc
        simp [pyIsSpace] at hc
      have := noTwoSpaces_collapseWsAux false cs
      cases he : collapseWsAux false cs with
      | nil => simp [noTwoSpaces, hc']
      | cons d ds =>
        rw [he] at this
        simpa [noTwoSpaces, hc'] using this

/-- The collapse scanner is the identity on text whose whitespace is
already single spaces (no adjacent pair, and no leading space while in
skip state). -/
theorem collapseWsAux_id : ∀ (cs : List Char) (b : Bool),
    (∀ c ∈ cs, c = ' ' ∨ pyIsSpace c = false) →
    noTwoSpaces cs = true →
    (b = true → ∀ ds, cs ≠ ' ' :: ds) →
    collapseWsAux b cs = cs
  | [], b => by intro _ _ _; cases b <;> rfl
  | c :: cs, b => by
    intro hgood h2 hhead
    by_cases hc : c = ' '
    · subst hc
      have hb : b = false := by
        cases b with
        | false => rfl
        | true => exact absurd rfl (fun h => hhead h cs rfl) 
      subst hb
      simp only [collapseWsAux, if_pos (show pyIsSpace ' ' = true from rfl),
        Bool.false_eq_true, if_false]
      congr 1
      apply collapseWsAux_id cs true
      · intro x hx
        exact hgood x (List.mem_cons_of_mem _ hx)
      · exact noTwoSpaces_tail _ _ h2
      · intro _ ds hds
        rw [hds] at h2
        simp [noTwoSpaces] at h2
    · have hcws : pyIsSpace c = false := by
        rcases hgood c (List.mem_cons_self c cs) with h | h
        · exact absurd h hc
        · exact h
      simp only [collapseWsAux, hcws, Bool.false_eq_true, if_false]
      congr 1
      apply collapseWsAux_id cs false
      · intro x hx
        exact hgood x (List.mem_cons_of_mem _ hx)
      · exact noTwoSpaces_tail _ _ h2
      · intro hfalse
        exact absurd hfalse (by simp)

/-- No-adjacent-spaces restricts to the left part of an append. -/
theorem noTwoSpaces_append_left : ∀ (l1 l2 : List Char),
    noTwoSpaces (l1 ++ l2) = true → noTwoSpaces l1 = true
  | [], l2 => by intro _; rfl
  | [c], l2 => by
    intro h
    by_cases hc : c = ' '
    · subst hc
      rfl
    · simp [noTwoSpaces, hc]
  | c :: d :: l1, l2 => by
    intro h
    by_cases hcd : c = ' ' ∧ d = ' '
    · obtain ⟨h1, h2⟩ := hcd
      subst h1
      subst h2
      simp [noTwoSpaces] at h
    · have step : noTwoSpaces (c :: d :: l1) = noTwoSpaces (d :: l1) := by
        rcases Decidable.not_and_iff_or_not.mp hcd with hx | hx
        · simp [noTwoSpaces, hx]
        · by_cases hc : c = ' '
          · subst hc
            simp [noTwoSpaces, hx]
          · simp [noTwoSpaces, hc]
      have step2 : noTwoSpaces (c :: d :: l1 ++ l2) = noTwoSpaces (d :: l1 ++ l2) := by
        rcases Decidable.not_and_iff_or_not.mp hcd with hx | hx
        · simp [noTwoSpaces, hx]
        · by_cases hc : c = ' '
          · subst hc
            simp [noTwoSpaces, hx]
          · simp [noTwoSpaces, hc]
      rw [step]
      apply noTwoSpaces_append_left (d :: l1) l2
      rw [← step2]
      exact h

/-- Members of a `dropWhile` are members of the original list. -/
theorem mem_dropWhile (p : Char → Bool) : ∀ (l : List Char) (c : Char),
    c ∈ l.dropWhile p → c ∈ l
  | [], c => by simp
  | d :: l, c => by
    intro h
    by_cases hd : p d
    · rw [List.dropWhile_cons, if_pos hd] at h
      exact List.mem_cons_of_mem d (mem_dropWhile p l c h)
    · rw [List.dropWhile_cons, if_neg hd] at h
      exact h

/-- The head surviving a `dropWhile` fails the predicate. -/
theorem dropWhile_head_not (p : Char → Bool) : ∀ (l : List Char) (d : Char)
    (ds : List Char), l.dropWhile p = d :: ds → p d = false
  | [], d, ds => by simp
  | c :: l, d, ds => by
    intro h
    by_cases hc : p c
    · rw [List.dropWhile_cons, if_pos hc] at h
      exact dropWhile_head_not p l d ds h
    · rw [List.dropWhile_cons, if_neg hc] at h
      rw [List.cons.injEq] at h
      rw [← h.1]
      simpa using hc

/-- Dropping a whitespace prefix preserves the no-adjacent-spaces property. -/
theorem noTwoSpaces_dropWhile (p : Char → Bool) : ∀ (l : List Char),
    noTwoSpaces l = true → noTwoSpaces (l.dropWhile p) = true
  | [] => by simp
  | c :: l => by
    intro h
    by_cases hc : p c
    · rw [List.dropWhile_cons, if_pos hc]
      exact noTwoSpaces_dropWhile p l (noTwoSpaces_tail c l h)
    · rw [List.dropWhile_cons, if_neg hc]
      exact h

/-- The right strip leaves a prefix: the original list is the stripped
list followed by the removed whitespace suffix. -/
theorem rstrip_append (l : List Char) :
    rstripChars l ++ (l.reverse.takeWhile pyIsSpace).reverse = l := by
  unfold rstripChars
  rw [← List.reverse_append, List.takeWhile_append_dropWhile, List.reverse_reverse]

/-- Members of the right strip are members of the original list. -/
theorem mem_rstrip (l : List Char) (c : Char) (h : c ∈ rstripChars l) : c ∈ l := by
  unfold rstripChars at h
  rw [List.mem_reverse] at h
  have := mem_dropWhile pyIsSpace l.reverse c h
  rwa [List.mem_reverse] at this

/-- Members of the full strip are members of the original list. -/
theorem mem_pyStrip (l : List Char) (c : Char) (h : c ∈ pyStrip l) : c ∈ l := by
  unfold pyStrip lstripChars at h
  exact mem_dropWhile pyIsSpace l c (mem_rstrip _ c h)

/-- The right strip preserves the no-adjacent-spaces property. -/
theorem noTwoSpaces_rstrip (l : List Char) (h : noTwoSpaces l = true) :
    noTwoSpaces (rstripChars l) = true := by
  apply noTwoSpaces_append_left (rstripChars l) (l.reverse.takeWhile pyIsSpace).reverse
  rw [rstrip_append]
  exact h

/-- The full strip preserves the no-adjacent-spaces property. -/
theorem noTwoSpaces_pyStrip (l : List Char) (h : noTwoSpaces l = true) :
    noTwoSpaces (pyStrip l) = true := by
  unfold pyStrip lstripChars
  exact noTwoSpaces_rstrip _ (noTwoSpaces_dropWhile pyIsSpace l h)

/-- A head surviving the right strip is the head of the original list. -/
theorem rstrip_head (l : List Char) (d : Char) (ds : List Char)
    (h : rstripChars l = d :: ds) : ∃ tl0, l = d :: tl0 := by
  have := rstrip_append l
  rw [h] at this
  exact ⟨ds ++ (l.reverse.takeWhile pyIsSpace).reverse, this.symm⟩

/-- The head of a stripped list is not whitespace. -/
theorem pyStrip_head (l : List Char) (d : Char) (ds : List Char)
    (h : pyStrip l = d :: ds) : pyIsSpace d = false := by
  unfold pyStrip lstripChars at h
  obtain ⟨tl0, htl⟩ := rstrip_head _ d ds h
  exact dropWhile_head_not pyIsSpace l d tl0 htl

/-- The last element of a stripped list is not whitespace. -/
theorem pyStrip_last (l : List Char) (d : Char) (ds : List Char)
    (h : (pyStrip l).reverse = d :: ds) : pyIsSpace d = false := by
  unfold pyStrip rstripChars at h
  rw [List.reverse_reverse] at h
  exact dropWhile_head_not pyIsSpace _ d ds h

/-- Stripping is the identity when neither end is whitespace. -/
theorem pyStrip_id (l : List Char)
    (hhead : ∀ d ds, l = d :: ds → pyIsSpace d = false)
    (hlast : ∀ d ds, l.reverse = d :: ds → pyIsSpace d = false) :
    pyStrip l = l := by
  unfold pyStrip lstripChars rstripChars
  have h1 : l.dropWhile pyIsSpace = l := by
    cases l with
    | nil => rfl
    | cons c cs =>
      rw [List.dropWhile_cons, if_neg (by simp [hhead c cs rfl])]
  rw [h1]
  have h2 : l.reverse.dropWhile pyIsSpace = l.reverse := by
    cases hrev : l.reverse with
    | nil => simp
    | cons c cs =>
      rw [List.dropWhile_cons, if_neg (by simp [hlast c cs hrev])]
  rw [h2, List.reverse_reverse]

/-- On ampersand-free text, the cleaned text is a fixed point of
cleaning. -/
theorem cleanTextChars_fixed (cs : List Char) (h : '&' ∉ cs) :
    cleanTextChars (cleanTextChars cs) = cleanTextChars cs := by
  set t := cleanTextChars cs with ht
  have hcollapse : cleanTextChars cs = pyStrip (collapseWsAux false cs) := by
    unfold cleanTextChars collapseWs
    rw [unescapeChars_no_amp cs h]
  have hmem : ∀ c ∈ t, c = ' ' ∨ (c ∈ cs ∧ pyIsSpace c = false) := by
    intro c hc
    rw [ht, hcollapse] at hc
    exact mem_collapseWsAux false cs c (mem_pyStrip _ c hc)
  have hamp : '&' ∉ t := by
    intro hin
    rcases hmem '&' hin with h1 | ⟨h2, -⟩
    · exact absurd h1 (by decide)
    · exact h h2
  have hgood : ∀ c ∈ t, c = ' ' ∨ pyIsSpace c = false := fun c hc =>
    (hmem c hc).imp id And.right
  have h2 : noTwoSpaces t = true := by
    rw [ht, hcollapse]
    exact noTwoSpaces_pyStrip _ (noTwoSpaces_collapseWsAux false cs)
  have hhead : ∀ d ds, t = d :: ds → pyIsSpace d = false := by
    intro d ds hdd
    rw [ht, hcollapse] at hdd
    exact pyStrip_head _ d ds hdd
  have hlast : ∀ d ds, t.reverse = d :: ds → pyIsSpace d = false := by
    intro d ds hdd
    rw [ht, hcollapse] at hdd
    exact pyStrip_last _ d ds hdd
  show cleanTextChars t = t
  unfold cleanTextChars collapseWs
  rw [unescapeChars_no_amp t hamp]
  rw [collapseWsAux_id t false hgood h2 (by simp)]
  exact pyStrip_id t hhead hlast

/-- C7 counterexample: normalization is NOT idempotent: the entity
decoding step re-decodes text that already normalized to `&amp;`
(`&amp;amp;` cleans to `&amp;`, which cleans again to `&`). -/
theorem cleanText_not_idempotent :
    cleanText (cleanText "&amp;amp;") ≠ cleanText "&amp;amp;" := by decide

/-- C7 (amended): on every string free of the entity-escape character
`&`, text normalization is idempotent — its output is a stable fixed
point. -/
theorem cleanText_idempotent_no_amp (s : String) (h : '&' ∉ s.data) :
    cleanText (cleanText s) = cleanText s := by
  unfold cleanText
  exact congrArg (fun l => String.mk l) (cleanTextChars_fixed s.data h)

/-- Witness for C7 (amended): a concrete ampersand-free string. -/
theorem cleanText_idempotent_no_amp_witness :
    '&' ∉ "  a   b ".data ∧
    cleanText (cleanText "  a   b ") = cleanText "  a   b " ∧
    cleanText "  a   b " = "a b" :=
  ⟨by decide, cleanText_idempotent_no_amp "  a   b " (by decide), rfl⟩
